import Mathlib

/-!
A shallow embedding of `yaat/routing.py`.

This file models the route-registration and route-resolution engine of the
`alicorn` repository (`src/yaat/routing.py`) and proves or refutes the
frozen claims about it.

Conventions of the embedding:

* Python strings are Lean `String`s; the string primitives the source uses
  (`startswith("/")`, `endswith("/")`, `s[:-1]`, `s.split("/")`, `"".join`,
  `str.upper`) are modelled explicitly on the underlying character lists.
* A Python `Router` is represented by its `routes` table: an insertion-ordered
  association list from path-segment keys to either a leaf `Route` or a nested
  sub-table (`Entry.sub`), mirroring the `OrderedDict` of `Route`-or-`Router`
  values.
* Handlers are opaque: they are never called by the engine, so they are
  modelled as bare `Nat` identifiers.
* The recursive procedures `Router.get_route` and `Router._get_paths` are
  modelled with an explicit fuel parameter; `none` means the recursion did not
  complete within the given fuel.  All positive claims are proved for
  explicitly sufficient fuel, and divergence claims are proved for every fuel.
* Failed `assert` statements are modelled as `Except.error RegError.DuplicateRouteError`.
-/

/-- Python's single-character-truthiness test `97 ≤ ord(c) ≤ 122`, i.e. an
ASCII lowercase letter, used to model `str.upper` on method tokens. -/
def isLowerAscii (c : Char) : Bool :=
  97 ≤ c.toNat && c.toNat ≤ 122

/-- Model of Python `str.upper` on a single character (ASCII range, which is
all the engine ever uppercases: HTTP method tokens). -/
def pyCharUpper (c : Char) : Char :=
  if isLowerAscii c then Char.ofNat (c.toNat - 32) else c

/-- Model of Python `str.upper` on a string. -/
def pyUpper (s : String) : String :=
  String.mk (s.data.map pyCharUpper)

/-- Model of Python `"".join(xs)`. -/
def pyJoin : List String → String
  | [] => ""
  | s :: rest => s ++ pyJoin rest

/-- Model of Python `s.split("/")` on the character list: split at every
slash, producing one (possibly empty) piece more than the number of
slashes. -/
def splitOnSlash : List Char → List (List Char)
  | [] => [[]]
  | c :: cs =>
    if c = '/' then [] :: splitOnSlash cs
    else
      match splitOnSlash cs with
      | [] => [[c]]
      | p :: ps => (c :: p) :: ps

/-- Model of Python `path.split("/")` at the string level. -/
def pySplit (s : String) : List String :=
  (splitOnSlash s.data).map String.mk

/-- Character-level core of `Router._clean_path`: keep `"/"` unchanged,
ensure a leading slash, strip exactly one trailing slash. -/
def charClean (cs : List Char) : List Char :=
  if cs = ['/'] then cs
  else
    let cs1 := if cs.head? = some '/' then cs else '/' :: cs
    if cs1.getLast? = some '/' then cs1.dropLast else cs1

/-- Model of `Router._clean_path`. -/
def _clean_path (path : String) : String :=
  String.mk (charClean path.data)

/-- Model of `Router._path_to_directories`: root yields `["/"]`; otherwise split on
`/`, discard empty tokens, re-prefix each remaining token with `/`. -/
def _path_to_directories (path : String) : List String :=
  if path = "/" then ["/"]
  else (((splitOnSlash path.data).map String.mk).filter (fun p => p ≠ "")).map
    (fun p => "/" ++ p)

/-- Model of `Router._directories_to_path`: concatenate, then ensure a leading
slash. -/
def _directories_to_path (directories : List String) : String :=
  let url := pyJoin directories
  if url.data.head? = some '/' then url else "/" ++ url

/-- The three route kinds of `RouteTypes`. -/
inductive RouteTypes where
  | HTTP
  | STATIC
  | WEBSOCKET
deriving DecidableEq, Repr

/-- Modelled from the spec: `yaat/constants.py` is not part of the provided
source; §3 of the spec says `methods` "defaults to the full standard method
set", so the default is the nine standard HTTP methods. -/
def HTTP_METHODS : List String :=
  ["GET", "HEAD", "POST", "PUT", "DELETE", "CONNECT", "OPTIONS", "TRACE", "PATCH"]

/-- A leaf route: kind, path template, opaque handler id, allowed methods. -/
structure Route where
  route_type : RouteTypes
  path : String
  handler : Nat
  methods : List String
deriving DecidableEq, Repr

/-- The `Route.methods` property setter: uppercase every entry (and nothing
else — the empty-input fallback lives in `Route.__init__`, not here). -/
def methods_setter (methods : List String) : List String :=
  methods.map pyUpper

/-- Model of `Route.__init__`: `self.methods = methods if methods else HTTP_METHODS`
(Python falsiness: both `None` and `[]` select the default), then the
`methods` setter uppercases. -/
def Route.init (route_type : RouteTypes) (path : String) (handler : Nat)
    (methods : Option (List String)) : Route :=
  let ms := match methods with
    | none => HTTP_METHODS
    | some l => if l = [] then HTTP_METHODS else l
  { route_type := route_type, path := path, handler := handler,
    methods := methods_setter ms }

/-- A later assignment `route.methods = ms` through the property setter. -/
def setRouteMethods (r : Route) (ms : List String) : Route :=
  { r with methods := methods_setter ms }

/-- Model of `Route.is_valid_method`. -/
def is_valid_method (r : Route) (method : String) : Bool :=
  r.methods.contains (pyUpper method)

/-- One value of a router's `routes` table: a leaf `Route` or a mounted
sub-router, represented by its own table. -/
inductive Entry where
  | route (r : Route)
  | sub (rs : List (String × Entry))
deriving Repr

/-- A router's `routes` table: an insertion-ordered association list. -/
abbrev Table := List (String × Entry)

mutual

/-- Structural weight of a table entry, used to compute sufficient fuel for
the fuel-indexed traversals below. -/
def entryW : Entry → Nat
  | Entry.route _ => 0
  | Entry.sub rs => 1 + tableW rs

/-- Structural weight of a table. -/
def tableW : List (String × Entry) → Nat
  | [] => 0
  | (_, e) :: rest => 1 + entryW e + tableW rest

end

mutual

/-- Whether a table entry contains no mounted sub-router with an empty
table anywhere inside it. -/
def entryNoEmptySub : Entry → Bool
  | Entry.route _ => true
  | Entry.sub rs => !rs.isEmpty && tableNoEmptySub rs

/-- Whether a table contains no mounted sub-router with an empty table
anywhere inside it. -/
def tableNoEmptySub : List (String × Entry) → Bool
  | [] => true
  | (_, e) :: rest => entryNoEmptySub e && tableNoEmptySub rest

end

mutual

/-- Closed form of what `Router._get_paths` computes on one entry (when no
empty sub-table resets the traversal): a leaf contributes
`prev_path + route.path` (just `route.path` when `prev_path` is unset), and a
mounted sub-router is traversed with `prev_path` *replaced* by the mount's own
key — ancestor prefixes above the immediate mount are discarded. -/
def entryPathsAcc : String → Option String → Entry → List String
  | _, prev_path, Entry.route r =>
    [(match prev_path with | some pp => pp ++ r.path | none => r.path)]
  | key, _, Entry.sub rs => tablePathsAcc rs (some key)

/-- Closed form of what `Router._get_paths` computes on a table, in
depth-first iteration order. -/
def tablePathsAcc : List (String × Entry) → Option String → List String
  | [], _ => []
  | (key, e) :: rest, prev_path =>
    entryPathsAcc key prev_path e ++ tablePathsAcc rest prev_path

end

mutual

/-- The full-path list as the claim words it: every leaf is listed under the
concatenation of *all* ancestor mount keys from the root down. -/
def entryPathsClaimed : String → String → Entry → List String
  | _, acc, Entry.route r => [acc ++ r.path]
  | key, acc, Entry.sub rs => tablePathsClaimed rs (acc ++ key)

/-- Table version of `entryPathsClaimed`. -/
def tablePathsClaimed : List (String × Entry) → String → List String
  | [], _ => []
  | (key, e) :: rest, acc =>
    entryPathsClaimed key acc e ++ tablePathsClaimed rest acc

end

/-- Python `OrderedDict` assignment `d[k] = v`: overwrite in place when the
key exists (keeping its position), otherwise append at the end. -/
def tableSet (t : Table) (k : String) (v : Entry) : Table :=
  if t.any (fun kv => kv.1 == k) then
    t.map (fun kv => if kv.1 == k then (k, v) else kv)
  else t ++ [(k, v)]

mutual

/-- Model of `Router._get_paths`, the entry point, fuel-indexed.  Mirrors the Python
method: `if not routes: routes = self.routes` treats an *empty* table the
same as an absent argument and restarts from the root table; `none` means
the recursion did not complete within `fuel` nested calls. -/
def getPathsFuel (root : Table) : Nat → Table → Option String → Option (List String)
  | 0, _, _ => none
  | fuel + 1, routes, prev_path =>
    let rts := if routes.isEmpty then root else routes
    getPathsLoop root fuel rts prev_path

/-- The `for path, router in routes.items()` loop body of
`Router._get_paths`: a `Route` appends `prev_path + route.path` (or bare
`route.path`), a sub-router is recursed into with `prev_path` set to its
key. -/
def getPathsLoop (root : Table) : Nat → Table → Option String → Option (List String)
  | 0, _, _ => none
  | _ + 1, [], _ => some []
  | fuel + 1, (path, Entry.route r) :: rest, prev_path =>
    let fullpath := match prev_path with
      | some pp => pp ++ r.path
      | none => r.path
    (getPathsLoop root fuel rest prev_path).map (fun ps => fullpath :: ps)
  | fuel + 1, (path, Entry.sub rs) :: rest, prev_path =>
    match getPathsFuel root fuel rs (some path) with
    | none => none
    | some subPaths =>
      (getPathsLoop root fuel rest prev_path).map (fun ps => subPaths ++ ps)

end

/-- The `Router.paths` property: recompute the flattened path list of the
whole tree.  `tableW t + 2` fuel is enough whenever the Python recursion
terminates at all (see `getPathsLoop_eq`). -/
def paths (t : Table) : Option (List String) :=
  getPathsFuel t (tableW t + 2) t none

/-- The registration failure of the engine (a failed duplicate `assert`,
`DuplicateRouteError` in spec terms). -/
inductive RegError where
  | DuplicateRouteError
deriving DecidableEq, Repr

/-- Model of `Router.add_route`: assert the *raw* `path` is not among `self.paths`,
then clean the path and store an HTTP (or STATIC) route under the cleaned
key.  `none` means the `self.paths` recomputation inside the assert never
terminated. -/
def add_route (t : Table) (path : String) (handler : Nat)
    (methods : Option (List String)) (is_static : Bool) :
    Option (Except RegError Table) :=
  match paths t with
  | none => none
  | some ps =>
    if path ∈ ps then some (Except.error RegError.DuplicateRouteError)
    else
      let route_type := if is_static then RouteTypes.STATIC else RouteTypes.HTTP
      let cpath := _clean_path path
      some (Except.ok (tableSet t cpath
        (Entry.route (Route.init route_type cpath handler methods))))

/-- Model of `Router.add_websocket_route`: same raw-path duplicate check, then store
a WEBSOCKET route (default methods) under the cleaned key. -/
def add_websocket_route (t : Table) (path : String) (handler : Nat) :
    Option (Except RegError Table) :=
  match paths t with
  | none => none
  | some ps =>
    if path ∈ ps then some (Except.error RegError.DuplicateRouteError)
    else
      let cpath := _clean_path path
      some (Except.ok (tableSet t cpath
        (Entry.route (Route.init RouteTypes.WEBSOCKET cpath handler none))))

/-- Model of `Router.mount`: assert the *raw* `prefix` is not a direct key of this
router's own table (no recursive check), then clean the prefix and store the
sub-router under the cleaned key. -/
def mount_router (t : Table) (sub : Table) (pfx : String) :
    Except RegError Table :=
  if pfx ∈ t.map Prod.fst then Except.error RegError.DuplicateRouteError
  else Except.ok (tableSet t (_clean_path pfx) (Entry.sub sub))

/-- A parameter mapping as returned by resolution: names to values, where a
value may be Python `None` (the static branch returns `prev_path`, which can
be `None`). -/
abbrev Params := List (String × Option String)

/-- Whether one `/`-delimited template segment is a named placeholder of the
form `{name}`. -/
def isPlaceholderSeg (s : String) : Bool :=
  s.data.head? == some '\x7b' && s.data.getLast? == some '\x7d' &&
    decide (2 ≤ s.data.length)

/-- The name inside a `{name}` placeholder segment. -/
def placeholderName (s : String) : String :=
  String.mk (s.data.drop 1).dropLast

/-- Segment-by-segment matching of template segments against concrete path
segments; a placeholder captures one whole non-empty segment. -/
def matchSegs : List String → List String → Option Params
  | [], [] => some []
  | t :: ts, p :: ps =>
    if isPlaceholderSeg t then
      if p ≠ "" then
        (matchSegs ts ps).map (fun acc => (placeholderName t, some p) :: acc)
      else none
    else if t = p then matchSegs ts ps
    else none
  | _, _ => none

/-- Modelled from the spec: the external `PathTemplateMatcher` capability
(the `parse` library import in the source, which is not part of this
repository).  §9 gives its contract: "given a template with named
placeholders and a concrete path, return success with a mapping of
placeholder-name to matched string, or failure; a straightforward
implementation tokenizes the template on `/` and `{name}` segments and
matches token-by-token". -/
def parseTemplate (template path : String) : Option Params :=
  matchSegs (pySplit template) (pySplit path)

/-- Python truthiness of the `prev_path` variable (`None` and `""` are
falsy). -/
def pyTruthy : Option String → Bool
  | none => false
  | some s => s ≠ ""

mutual

/-- Model of `Router.get_route`, the fuel-indexed entry point.  `root` is the table of
`self` (the router the method was invoked on — all recursive calls are
`self.get_route(...)`).  As in the source, `if not routes: routes =
self.routes` treats an *empty* `routes` argument the same as an absent one
and restarts from the root table.  `none` means the recursion did not
complete within the given fuel. -/
def getRouteFuel (root : Table) :
    Nat → String → Option String → Table → Option (Option Route × Option Params)
  | 0, _, _, _ => none
  | fuel + 1, request_path, prev_path, routes =>
    let rts := if routes.isEmpty then root else routes
    getRouteLoop root fuel request_path prev_path rts

/-- The `for path, router in routes.items()` loop of `Router.get_route`.
Note that `prev_path` is a Python local reassigned inside the loop, so a
sub-router entry that is entered but yields no match leaves its reassigned
`prev_path` behind for the remaining iterations. -/
def getRouteLoop (root : Table) :
    Nat → String → Option String → Table → Option (Option Route × Option Params)
  | 0, _, _, _ => none
  | _ + 1, _, _, [] => some (none, none)
  | fuel + 1, request_path, prev_path, (_, Entry.route r) :: rest =>
    if r.route_type = RouteTypes.STATIC then
      some (some r, some [("router_path", prev_path)])
    else
      match parseTemplate r.path request_path with
      | some named => some (some r, some named)
      | none => getRouteLoop root fuel request_path prev_path rest
  | fuel + 1, request_path, prev_path, (path, Entry.sub rs) :: rest =>
    match _path_to_directories request_path with
    | [] => none
    | first_directory :: ds =>
      if (first_directory :: ds).length ≠ 1 ∧ first_directory ≠ path then
        getRouteLoop root fuel request_path prev_path rest
      else
        let prev2 :=
          if pyTruthy prev_path ∧ first_directory ≠ "/" then
            some (prev_path.getD "" ++ first_directory)
          else if pyTruthy prev_path = false ∧ (first_directory :: ds).length = 1 then
            some "/"
          else some first_directory
        let next_request_path := _directories_to_path ds
        match getRouteFuel root fuel next_request_path prev2 rs with
        | none => none
        | some (some r, kwargs) => some (some r, kwargs)
        | some (none, _) => getRouteLoop root fuel request_path prev2 rest

end

/-- The public resolution call `router.get_route(request_path=...)`:
`tableW root + 2` fuel is enough whenever the Python recursion terminates at
all (see `getRouteLoop_isSome`). -/
def get_route (root : Table) (request_path : String) :
    Option (Option Route × Option Params) :=
  getRouteFuel root (tableW root + 2) request_path none root

/-- The new `prev_path` the source computes before descending into a mounted
sub-router, as a standalone function of the loop's current `prev_path`, the
first directory token, and the number of directory tokens. -/
def newPrevPath (prev_path : Option String) (first_directory : String)
    (ndirs : Nat) : Option String :=
  if pyTruthy prev_path ∧ first_directory ≠ "/" then
    some (prev_path.getD "" ++ first_directory)
  else if pyTruthy prev_path = false ∧ ndirs = 1 then some "/"
  else some first_directory

/-- Whether a character list contains no two adjacent slashes. -/
def noDoubleSlash : List Char → Bool
  | [] => true
  | [_] => true
  | a :: b :: rest => !(a = '/' && b = '/') && noDoubleSlash (b :: rest)

/-- Character-level core of `to_path ∘ to_directories` on a non-root path:
split on slashes, drop empty pieces, re-prefix each piece with `/`,
concatenate. -/
def gCore (cs : List Char) : List Char :=
  (((splitOnSlash cs).filter (fun p => p ≠ [])).map (fun p => '/' :: p)).flatten

/-- Fixture: the dynamic widget route of sub-router S in the nested-mount
scenario. -/
def w1 : Route := Route.init RouteTypes.HTTP "/widgets/{id}" 7 none

/-- Fixture: root router R mounting sub-router S (one `/widgets/{id}` route)
under `/api`. -/
def root1 : Table := [("/api", Entry.sub [("/widgets/{id}", Entry.route w1)])]

/-- Fixture: an HTTP route at `/foo`. -/
def rfoo : Route := Route.init RouteTypes.HTTP "/foo" 4 none

/-- Fixture: a single-route table owning `/foo`. -/
def t0 : Table := [("/foo", Entry.route rfoo)]

/-- Fixture: a sub-router table used as a mount argument. -/
def sub4 : Table := [("/w", Entry.route rfoo)]

/-- Fixture: an HTTP route at `/c`, nested two mounts deep in `root3`. -/
def rc3 : Route := Route.init RouteTypes.HTTP "/c" 3 none

/-- Fixture: a tree with a leaf two mount levels deep
(`/a` mounts `/b` mounts route `/c`). -/
def root3 : Table :=
  [("/a", Entry.sub [("/b", Entry.sub [("/c", Entry.route rc3)])])]

/-- Fixture: a non-matching HTTP route inside the first mount of `root8`. -/
def rz8 : Route := Route.init RouteTypes.HTTP "/z" 1 none

/-- Fixture: the static route inside the second mount of `root8`. -/
def rstat8 : Route := Route.init RouteTypes.STATIC "/s" 2 none

/-- Fixture: two sibling mounts; the first is entered and fails, mutating
the loop's `prev_path`, before the second is entered. -/
def root8 : Table :=
  [("/a", Entry.sub [("/z", Entry.route rz8)]),
   ("/b", Entry.sub [("/s", Entry.route rstat8)])]

/-- Fixture: a root router with a mounted sub-router whose own table is
empty. -/
def root9 : Table := [("/a", Entry.sub [])]

/-- Fixture: a static route used to witness the static-entry short-circuit. -/
def rstatW : Route := Route.init RouteTypes.STATIC "/files" 9 none

/-- Fixture: the static route sitting after a sibling mount in `root7`. -/
def rstat7 : Route := Route.init RouteTypes.STATIC "/s" 11 none

/-- Fixture: a mount that is entered (single directory token) but never
matches, followed by a static route in the same table, so the static entry
is reached only after the sibling mount has reassigned the loop-local
`prev_path`. -/
def root7 : Table :=
  [("/a", Entry.sub [("/z", Entry.route rz8)]),
   ("/s", Entry.route rstat7)]

/-- The router's table after an `add_route` call returns or raises: a failed
duplicate `assert` propagates before the dict assignment, so on failure the
table is the pre-call one (`none` when the call never returns). -/
def add_route_state (t : Table) (path : String) (handler : Nat)
    (methods : Option (List String)) (is_static : Bool) : Option Table :=
  match add_route t path handler methods is_static with
  | none => none
  | some (Except.error _) => some t
  | some (Except.ok t2) => some t2

/-- The router's table after an `add_websocket_route` call returns or
raises. -/
def add_websocket_route_state (t : Table) (path : String) (handler : Nat) :
    Option Table :=
  match add_websocket_route t path handler with
  | none => none
  | some (Except.error _) => some t
  | some (Except.ok t2) => some t2

/-- The router's table after a `mount` call returns or raises. -/
def mount_state (t : Table) (sub : Table) (pfx : String) : Table :=
  match mount_router t sub pfx with
  | Except.error _ => t
  | Except.ok t2 => t2

/-! ## Helper lemmas about `str.upper` -/

theorem isLowerAscii_bounds {c : Char} (h : isLowerAscii c = true) :
    97 ≤ c.toNat ∧ c.toNat ≤ 122 := by
  simpa [isLowerAscii, Bool.and_eq_true, decide_eq_true_eq] using h

theorem pyCharUpper_toNat {c : Char} (h : isLowerAscii c = true) :
    (pyCharUpper c).toNat = c.toNat - 32 := by
  have hb := isLowerAscii_bounds h
  have hv : Nat.isValidChar (c.toNat - 32) := Or.inl (by omega)
  unfold pyCharUpper
  rw [if_pos h]
  unfold Char.ofNat
  rw [dif_pos hv]
  rfl

theorem pyCharUpper_not_lower (c : Char) : isLowerAscii (pyCharUpper c) = false := by
  by_cases h : isLowerAscii c = true
  · have ht := pyCharUpper_toNat h
    have hb := isLowerAscii_bounds h
    simp [isLowerAscii, ht]
    omega
  · have hb : isLowerAscii c = false := by simpa using h
    unfold pyCharUpper
    rw [if_neg (by simp [hb])]
    exact hb

theorem pyCharUpper_idem (c : Char) :
    pyCharUpper (pyCharUpper c) = pyCharUpper c := by
  conv_lhs => rw [pyCharUpper]
  rw [if_neg (by simp [pyCharUpper_not_lower])]

theorem pyUpper_idem (s : String) : pyUpper (pyUpper s) = pyUpper s := by
  unfold pyUpper
  apply String.ext
  simp [List.map_map, Function.comp]
  exact fun c _ => pyCharUpper_idem c

/-! ## Claim C6 -/

/-- Claim C6 counterexample: the claim says `methods` stays non-empty no
matter how the setter is subsequently used, but the setter performs no
empty-input substitution — assigning `[]` through it leaves an empty method
list. -/
theorem c6_counterexample :
    (setRouteMethods (Route.init RouteTypes.HTTP "/x" 0 none) []).methods = [] := rfl

/-- Claim C6 (amended): a constructed `Route` always has a non-empty,
all-uppercase `methods` list (the empty/absent-input default substitution
happens in the constructor); the setter uppercases every entry and keeps
non-empty inputs non-empty, but a setter call with an empty list yields an
empty `methods` list. -/
theorem c6_methods_invariant :
    ∀ (rt : RouteTypes) (p : String) (hd : Nat) (mso : Option (List String))
      (r : Route) (ms : List String),
    (Route.init rt p hd mso).methods ≠ [] ∧
    (∀ m ∈ (Route.init rt p hd mso).methods, pyUpper m = m) ∧
    (ms ≠ [] → (setRouteMethods r ms).methods ≠ []) ∧
    (∀ m ∈ (setRouteMethods r ms).methods, pyUpper m = m) ∧
    (setRouteMethods r []).methods = [] := by
  intro rt p hd mso r ms
  have upAll : ∀ (l : List String), ∀ m ∈ methods_setter l, pyUpper m = m := by
    intro l m hm
    unfold methods_setter at hm
    obtain ⟨x, _, rfl⟩ := List.mem_map.mp hm
    exact pyUpper_idem x
  refine ⟨?_, upAll _, ?_, upAll _, rfl⟩
  · unfold Route.init methods_setter
    cases mso with
    | none => simp [HTTP_METHODS]
    | some l =>
      by_cases hl : l = [] <;> simp [hl, HTTP_METHODS]
  · intro hms
    unfold setRouteMethods methods_setter
    simpa using hms

/-- Claim C6 witness: the amended theorem applied at a concrete route and a
concrete non-empty setter input. -/
theorem c6_witness :
    (["get"] : List String) ≠ [] ∧
      (setRouteMethods rfoo ["get"]).methods ≠ [] :=
  ⟨by decide,
   (c6_methods_invariant RouteTypes.HTTP "/x" 0 none rfoo ["get"]).2.2.1 (by decide)⟩

/-! ## Claim C7 -/

/-- Claim C7 counterexample: the claim pins the returned `router_path` to
the `prev_path` *argument* of the current `get_route` call.  On `root7`,
resolving `/x` is invoked with `prev_path = None`, but the sibling mount
`/a` is entered first (a single directory token enters every mount), fails,
and reassigns the loop-local `prev_path` to `"/"` — so the static entry
returns `{"router_path": "/"}`, not the invoked argument `None`. -/
theorem c7_counterexample :
    get_route root7 "/x" =
        some (some rstat7, some [("router_path", some "/")]) ∧
      (some "/" : Option String) ≠ none := ⟨rfl, by decide⟩

/-- Claim C7 (amended): when the resolution loop reaches an entry that is a
Route of kind STATIC, it returns immediately and unconditionally, for every
request path, the pair `(route, {"router_path": pp})` where `pp` is the
*current* value of the loop-local `prev_path` variable — which starts as the
call's `prev_path` argument but may have been reassigned by earlier
entered-but-unmatched sibling mount entries in the same iteration
(`c7_counterexample`). -/
theorem c7_static_short_circuit :
    ∀ (root : Table) (fuel : Nat) (request_path : String)
      (prev_path : Option String) (key : String) (r : Route) (rest : Table),
    r.route_type = RouteTypes.STATIC →
    getRouteLoop root (fuel + 1) request_path prev_path
        ((key, Entry.route r) :: rest) =
      some (some r, some [("router_path", prev_path)]) := by
  intro root fuel rp pp k r rest h
  simp [getRouteLoop, h]

/-- Claim C7 witness: the static short-circuit at a concrete static route,
deep request path and consumed prefix. -/
theorem c7_witness :
    rstatW.route_type = RouteTypes.STATIC ∧
      getRouteLoop [] 1 "/anything/at/all" (some "/files")
          [("/files", Entry.route rstatW)] =
        some (some rstatW, some [("router_path", some "/files")]) :=
  ⟨rfl, c7_static_short_circuit [] 0 "/anything/at/all" (some "/files")
    "/files" rstatW [] rfl⟩

/-! ## Claim C4 -/

/-- Claim C4 counterexample: the mount duplicate check uses the *raw*
prefix, not the normalized one — mounting under `"api"` succeeds (silently
overwriting) even though `clean("api") = "/api"` is already a direct key. -/
theorem c4_counterexample :
    mount_router root1 sub4 "api" = Except.ok [("/api", Entry.sub sub4)] ∧
      _clean_path "api" ∈ root1.map Prod.fst := ⟨rfl, by decide⟩

/-- Claim C4 (amended): `mount` fails with the duplicate error iff the raw
`prefix` argument (before normalization) is already a direct key of this
router's own table; otherwise it stores the sub-router under the cleaned
prefix.  The check never recurses into nested tables. -/
theorem c4_mount_duplicate_check :
    ∀ (t : Table) (s : Table) (pfx : String),
    (mount_router t s pfx = Except.error RegError.DuplicateRouteError ↔
      pfx ∈ t.map Prod.fst) ∧
    (pfx ∉ t.map Prod.fst →
      mount_router t s pfx =
        Except.ok (tableSet t (_clean_path pfx) (Entry.sub s))) := by
  intro t s pfx
  unfold mount_router
  by_cases h : pfx ∈ t.map Prod.fst <;> simp [h]

/-- Claim C4 witness: the amended theorem applied at a fresh prefix. -/
theorem c4_witness :
    ("bar" : String) ∉ root1.map Prod.fst ∧
      mount_router root1 sub4 "bar" =
        Except.ok (tableSet root1 (_clean_path "bar") (Entry.sub sub4)) :=
  ⟨by decide, (c4_mount_duplicate_check root1 sub4 "bar").2 (by decide)⟩

/-! ## Claim C1 -/

/-- Claim C1: with root router `root1` mounting sub-router S under `/api`,
and S owning the HTTP route `/widgets/{id}`, resolving `/api/widgets/7`
returns S's route together with the parameter mapping `{"id": "7"}`. -/
theorem c1_nested_mount_resolution :
    get_route root1 "/api/widgets/7" = some (some w1, some [("id", some "7")]) := rfl

/-! ## Claim C10 -/

/-- Claim C10: registration is atomic on failure — when `add_route`,
`add_websocket_route` or `mount` raises the duplicate error, the router's
table is exactly the pre-call one, because the duplicate `assert` runs
before the dict assignment. -/
theorem c10_registration_atomic :
    ∀ (t : Table) (p : String) (hd : Nat) (ms : Option (List String))
      (st : Bool) (s : Table) (pfx : String) (pw : String) (hw : Nat),
    (add_route t p hd ms st = some (Except.error RegError.DuplicateRouteError) →
      add_route_state t p hd ms st = some t) ∧
    (add_websocket_route t pw hw = some (Except.error RegError.DuplicateRouteError) →
      add_websocket_route_state t pw hw = some t) ∧
    (mount_router t s pfx = Except.error RegError.DuplicateRouteError →
      mount_state t s pfx = t) := by
  intro t p hd ms st s pfx pw hw
  refine ⟨?_, ?_, ?_⟩
  · intro h; unfold add_route_state; rw [h]
  · intro h; unfold add_websocket_route_state; rw [h]
  · intro h; unfold mount_state; rw [h]

/-- Claim C10 witness: all three operations failing on concrete duplicates,
each leaving the table untouched. -/
theorem c10_witness :
    add_route_state t0 "/foo" 5 none false = some t0 ∧
      add_websocket_route_state t0 "/foo" 6 = some t0 ∧
      mount_state t0 sub4 "/foo" = t0 :=
  ⟨(c10_registration_atomic t0 "/foo" 5 none false sub4 "/foo" "/foo" 6).1 rfl,
   (c10_registration_atomic t0 "/foo" 5 none false sub4 "/foo" "/foo" 6).2.1 rfl,
   (c10_registration_atomic t0 "/foo" 5 none false sub4 "/foo" "/foo" 6).2.2 rfl⟩

/-! ## Claim C8 -/

/-- Claim C8 counterexample: resolving `/x` against `root8`, the first
mount (`/a`) is entered (a single directory token enters every mount),
fails, and leaves `prev_path = "/"` behind; the second mount (`/b`) then
receives prefix `"/" + "/x" = "//x"`.  Computed from the *invoked*
`prev_path` (unset, one token) as the claim states, the prefix would have
been `"/"`. -/
theorem c8_counterexample :
    get_route root8 "/x" =
        some (some rstat8, some [("router_path", some "//x")]) ∧
      newPrevPath none "/x" (_path_to_directories "/x").length = some "/" ∧
      (some "//x" : Option String) ≠ some "/" := ⟨rfl, rfl, by decide⟩

/-- Claim C8 (amended): the prefix passed down into a mounted sub-router
entry is `newPrevPath` of the loop's *current* `prev_path` variable — which
earlier entered-but-unmatched sibling mounts in the same iteration may have
reassigned — together with the first directory token and the token count;
the same reassigned value also flows to the remaining iterations. -/
theorem c8_descend_prev_path :
    ∀ (root : Table) (fuel : Nat) (request_path : String)
      (prev_path : Option String) (key : String) (rs rest : Table)
      (first : String) (ds : List String),
    _path_to_directories request_path = first :: ds →
    ¬((first :: ds).length ≠ 1 ∧ first ≠ key) →
    getRouteLoop root (fuel + 1) request_path prev_path
        ((key, Entry.sub rs) :: rest) =
      match getRouteFuel root fuel (_directories_to_path ds)
          (newPrevPath prev_path first (first :: ds).length) rs with
      | none => none
      | some (some r, kwargs) => some (some r, kwargs)
      | some (none, _) =>
        getRouteLoop root fuel request_path
          (newPrevPath prev_path first (first :: ds).length) rest := by
  intro root fuel rp pp k rs rest first ds hdirs hskip
  simp only [getRouteLoop, hdirs, newPrevPath]
  rw [if_neg hskip]

/-- Claim C8 witness: the amended step equation at a concrete mount entry
that is entered. -/
theorem c8_witness :
    _path_to_directories "/a" = ["/a"] ∧
      ¬((["/a"] : List String).length ≠ 1 ∧ "/a" ≠ "/a") ∧
      getRouteLoop [] 1 "/a" none [("/a", Entry.sub [("/q", Entry.route rfoo)])] = none :=
  ⟨rfl, by decide,
   (c8_descend_prev_path [] 0 "/a" none "/a" [("/q", Entry.route rfoo)] [] "/a" []
     rfl (by decide)).trans rfl⟩

/-! ## Flattened-path computation: termination and closed form -/

theorem getPathsFuel_succ (root : Table) (f : Nat) (t : Table) (prev : Option String) :
    getPathsFuel root (f + 1) t prev =
      getPathsLoop root f (if t.isEmpty then root else t) prev := rfl

theorem getPathsLoop_eq :
    ∀ (fuel : Nat) (root t : Table) (prev : Option String),
    tableNoEmptySub t = true → tableW t + 1 ≤ fuel →
    getPathsLoop root fuel t prev = some (tablePathsAcc t prev) := by
  intro fuel
  induction fuel using Nat.strong_induction_on with
  | _ fuel ih =>
    intro root t prev hne hw
    cases fuel with
    | zero => omega
    | succ f =>
      cases t with
      | nil => simp [getPathsLoop, tablePathsAcc]
      | cons kv rest =>
        obtain ⟨k, e⟩ := kv
        cases e with
        | route r =>
          have hts : tableW ((k, Entry.route r) :: rest) = 1 + tableW rest := by
            simp [tableW, entryW]
          have hne2 : tableNoEmptySub rest = true := by
            simp only [tableNoEmptySub, entryNoEmptySub, Bool.and_eq_true] at hne
            exact hne.2
          simp only [getPathsLoop]
          rw [ih f (by omega) root rest prev hne2 (by omega)]
          cases prev <;> simp [tablePathsAcc, entryPathsAcc]
        | sub rs =>
          have hts : tableW ((k, Entry.sub rs) :: rest) = 2 + tableW rs + tableW rest := by
            simp [tableW, entryW]; omega
          simp only [tableNoEmptySub, entryNoEmptySub, Bool.and_eq_true,
            Bool.not_eq_true'] at hne
          have hrs_ne : rs.isEmpty = false := hne.1.1
          have hrs : tableNoEmptySub rs = true := hne.1.2
          have hrest : tableNoEmptySub rest = true := hne.2
          obtain ⟨f', rfl⟩ : ∃ f', f = f' + 1 := ⟨f - 1, by omega⟩
          simp only [getPathsLoop, getPathsFuel_succ, hrs_ne, Bool.false_eq_true,
            if_false]
          rw [ih f' (by omega) root rs (some k) hrs (by omega)]
          rw [ih (f' + 1) (by omega) root rest prev hrest (by omega)]
          simp [tablePathsAcc, entryPathsAcc]

theorem paths_eq_of_noEmptySub :
    ∀ t : Table, tableNoEmptySub t = true → paths t = some (tablePathsAcc t none) := by
  intro t hne
  unfold paths
  rw [show tableW t + 2 = (tableW t + 1) + 1 from rfl, getPathsFuel_succ]
  cases t with
  | nil => simp [getPathsLoop, tablePathsAcc]
  | cons kv rest =>
    rw [if_neg (by simp)]
    exact getPathsLoop_eq (tableW (kv :: rest) + 1) (kv :: rest) (kv :: rest) none hne
      (by omega)

/-! ## Claim C3 -/

/-- Claim C3 counterexample: for a leaf nested two mounts deep, the entry
recorded by `paths` is `"/b/c"` — the *immediate* mount key plus the leaf
path — not the full ancestor concatenation `"/a/b/c"` the claim requires. -/
theorem c3_counterexample :
    paths root3 = some ["/b/c"] ∧
      tablePathsClaimed root3 "" = ["/a/b/c"] ∧
      (["/b/c"] : List String) ≠ ["/a/b/c"] := ⟨rfl, rfl, by decide⟩

/-- Claim C3 (amended): on every tree whose mounted sub-routers all have
non-empty tables, `paths` returns exactly the depth-first list in which a
root-level leaf contributes its own path and a nested leaf contributes its
*immediate* parent mount's key concatenated with its own path — ancestor
prefixes above that are discarded (and with an empty mounted sub-table the
recomputation never terminates at all, see the C9 analysis). -/
theorem c3_paths_closed_form :
    ∀ t : Table, tableNoEmptySub t = true →
      paths t = some (tablePathsAcc t none) := by
  intro t hne
  exact paths_eq_of_noEmptySub t hne

/-- Claim C3 witness: the closed form at the doubly-nested fixture. -/
theorem c3_witness :
    tableNoEmptySub root3 = true ∧ paths root3 = some (tablePathsAcc root3 none) :=
  ⟨by decide, c3_paths_closed_form root3 (by decide)⟩

/-! ## Claim C2 -/

/-- Claim C2 counterexample: `add_route` checks the *raw* path, not the
cleaned one.  With `/foo` registered, `add_route` of `"foo"` succeeds (and
silently overwrites the stored entry) even though `clean("foo") = "/foo"` is
in the freshly recomputed flattened path list. -/
theorem c2_counterexample :
    add_route t0 "foo" 5 none false =
        some (Except.ok [("/foo", Entry.route (Route.init RouteTypes.HTTP "/foo" 5 none))]) ∧
      paths t0 = some ["/foo"] ∧
      _clean_path "foo" = "/foo" := ⟨rfl, rfl, rfl⟩

/-- Claim C2 (amended): on trees whose mounted sub-routers all have
non-empty tables (otherwise the `paths` recomputation inside the check never
terminates), `add_route` fails with the duplicate error iff the *raw* `path`
argument — not `clean(path)` — appears in the freshly recomputed flattened
path list; on success it stores a Route of kind HTTP (STATIC when
`is_static`) under the key `clean(path)`, overwriting any entry already at
that key. -/
theorem c2_add_route_duplicate_check :
    ∀ (t : Table) (p : String) (hd : Nat) (ms : Option (List String)) (st : Bool),
    tableNoEmptySub t = true →
    (add_route t p hd ms st = some (Except.error RegError.DuplicateRouteError) ↔
      p ∈ tablePathsAcc t none) ∧
    (p ∉ tablePathsAcc t none →
      add_route t p hd ms st = some (Except.ok (tableSet t (_clean_path p)
        (Entry.route (Route.init (if st then RouteTypes.STATIC else RouteTypes.HTTP)
          (_clean_path p) hd ms))))) := by
  intro t p hd ms st hne
  unfold add_route
  rw [paths_eq_of_noEmptySub t hne]
  by_cases hp : p ∈ tablePathsAcc t none <;> simp [hp]

/-- Claim C2 witness: the amended theorem applied at the one-route fixture,
both on the duplicate raw path (error) and on a fresh path (success). -/
theorem c2_witness :
    tableNoEmptySub t0 = true ∧
      add_route t0 "/foo" 5 none false =
        some (Except.error RegError.DuplicateRouteError) :=
  ⟨by decide,
   (c2_add_route_duplicate_check t0 "/foo" 5 none false (by decide)).1.mpr (by decide)⟩

/-! ## Claim C9: resolution on a tree with an empty mounted sub-table -/

theorem fuel9_empty_step (n : Nat) (rp : String) (pp : Option String) :
    getRouteFuel root9 (n + 1) rp pp [] = getRouteLoop root9 n rp pp root9 := rfl

theorem loop9_step_slash (n : Nat) :
    getRouteLoop root9 (n + 1) "/" (some "/") root9 =
      match getRouteFuel root9 n "/" (some "/") [] with
      | none => none
      | some (some r, kwargs) => some (some r, kwargs)
      | some (none, _) => getRouteLoop root9 n "/" (some "/") [] := rfl

theorem c9_spin : ∀ n : Nat,
    getRouteFuel root9 n "/" (some "/") [] = none ∧
      getRouteLoop root9 n "/" (some "/") root9 = none := by
  intro n
  induction n with
  | zero => exact ⟨rfl, rfl⟩
  | succ m ih =>
    refine ⟨?_, ?_⟩
    · rw [fuel9_empty_step]; exact ih.2
    · rw [loop9_step_slash, ih.1]

theorem loop9_step_ax (n : Nat) :
    getRouteLoop root9 (n + 1) "/" (some "/a/x") root9 =
      match getRouteFuel root9 n "/" (some "/") [] with
      | none => none
      | some (some r, kwargs) => some (some r, kwargs)
      | some (none, _) => getRouteLoop root9 n "/" (some "/") [] := rfl

theorem c9_after_ax : ∀ n : Nat,
    getRouteFuel root9 n "/" (some "/a/x") [] = none := by
  intro n
  cases n with
  | zero => rfl
  | succ m =>
    rw [show getRouteFuel root9 (m + 1) "/" (some "/a/x") [] =
      getRouteLoop root9 m "/" (some "/a/x") root9 from rfl]
    cases m with
    | zero => rfl
    | succ l => rw [loop9_step_ax, (c9_spin l).1]

theorem loop9_step_x (n : Nat) :
    getRouteLoop root9 (n + 1) "/x" (some "/a") root9 =
      match getRouteFuel root9 n "/" (some "/a/x") [] with
      | none => none
      | some (some r, kwargs) => some (some r, kwargs)
      | some (none, _) => getRouteLoop root9 n "/x" (some "/a/x") [] := rfl

theorem c9_after_x : ∀ n : Nat,
    getRouteFuel root9 n "/x" (some "/a") [] = none := by
  intro n
  cases n with
  | zero => rfl
  | succ m =>
    rw [show getRouteFuel root9 (m + 1) "/x" (some "/a") [] =
      getRouteLoop root9 m "/x" (some "/a") root9 from rfl]
    cases m with
    | zero => rfl
    | succ l => rw [loop9_step_x, c9_after_ax l]

theorem loop9_step_top (n : Nat) :
    getRouteLoop root9 (n + 1) "/a/x" none root9 =
      match getRouteFuel root9 n "/x" (some "/a") [] with
      | none => none
      | some (some r, kwargs) => some (some r, kwargs)
      | some (none, _) => getRouteLoop root9 n "/a/x" (some "/a") [] := rfl

/-- Claim C9: the claim asserts `get_route` terminates with a result pair on
every finite tree, including one containing a mounted sub-router with an
empty table.  It does not: on `root9` (one mount `/a` whose sub-table is
empty) resolving `/a/x` recurses into the empty sub-table, which
`if not routes: routes = self.routes` replaces by the root table again, and
the walk loops forever — no amount of fuel produces a result. -/
theorem c9_divergence : ∀ fuel : Nat,
    getRouteFuel root9 fuel "/a/x" none root9 = none := by
  intro fuel
  cases fuel with
  | zero => rfl
  | succ n =>
    rw [show getRouteFuel root9 (n + 1) "/a/x" none root9 =
      getRouteLoop root9 n "/a/x" none root9 from rfl]
    cases n with
    | zero => rfl
    | succ m => rw [loop9_step_top, c9_after_x m]

/-! ## Claim C5: path normalization algebra -/

theorem splitOnSlash_ne_nil : ∀ cs : List Char, splitOnSlash cs ≠ [] := by
  intro cs
  cases cs with
  | nil => simp [splitOnSlash]
  | cons c cs =>
    by_cases h : c = '/'
    · simp [splitOnSlash, h]
    · simp only [splitOnSlash, if_neg h]
      cases splitOnSlash cs <;> simp

theorem split_cons_slash (cs : List Char) :
    splitOnSlash ('/' :: cs) = [] :: splitOnSlash cs := by
  simp [splitOnSlash]

theorem split_cons_ne {c : Char} (cs : List Char) (h : c ≠ '/') :
    ∃ p ps, splitOnSlash cs = p :: ps ∧ splitOnSlash (c :: cs) = (c :: p) :: ps := by
  obtain ⟨p, ps, hps⟩ : ∃ p ps, splitOnSlash cs = p :: ps := by
    cases hsp : splitOnSlash cs with
    | nil => exact absurd hsp (splitOnSlash_ne_nil cs)
    | cons p ps => exact ⟨p, ps, rfl⟩
  refine ⟨p, ps, hps, ?_⟩
  simp only [splitOnSlash, if_neg h, hps]

theorem noDbl_tail {a : Char} {l : List Char}
    (h : noDoubleSlash (a :: l) = true) : noDoubleSlash l = true := by
  cases l with
  | nil => rfl
  | cons b r =>
    simp only [noDoubleSlash, Bool.and_eq_true] at h
    exact h.2

theorem noDbl_head {tl : List Char}
    (h : noDoubleSlash ('/' :: tl) = true) : tl.head? ≠ some '/' := by
  cases tl with
  | nil => simp
  | cons e r =>
    simp only [noDoubleSlash, Bool.and_eq_true, Bool.not_eq_true',
      Bool.and_eq_false_iff, decide_eq_false_iff_not] at h
    rcases h.1 with h1 | h1
    · exact absurd trivial h1
    · simp [h1]

theorem noDbl_cons_slash {l : List Char} (hh : l.head? ≠ some '/')
    (h : noDoubleSlash l = true) : noDoubleSlash ('/' :: l) = true := by
  cases l with
  | nil => rfl
  | cons b r =>
    simp only [List.head?_cons, ne_eq, Option.some.injEq] at hh
    simp only [noDoubleSlash, Bool.and_eq_true]
    exact ⟨by simp [hh], h⟩

theorem noDbl_init : ∀ {l : List Char} {a : Char},
    noDoubleSlash (l ++ [a]) = true → noDoubleSlash l = true := by
  intro l
  induction l with
  | nil => intro a _; rfl
  | cons b r ih =>
    intro a h
    cases r with
    | nil => rfl
    | cons c r' =>
      simp only [List.cons_append, noDoubleSlash, Bool.and_eq_true] at h ⊢
      exact ⟨h.1, ih h.2⟩

theorem noDbl_concat_slash_last : ∀ {l : List Char},
    noDoubleSlash (l ++ ['/']) = true → l.getLast? ≠ some '/' := by
  intro l
  induction l with
  | nil => simp
  | cons b r ih =>
    intro h
    cases r with
    | nil =>
      simp only [List.cons_append, List.nil_append, noDoubleSlash,
        Bool.and_eq_true, Bool.not_eq_true', Bool.and_eq_false_iff,
        decide_eq_false_iff_not] at h
      rcases h.1 with h1 | h1
      · simp [List.getLast?, h1]
      · exact absurd trivial h1
    | cons c r' =>
      rw [List.getLast?_cons_cons]
      exact ih (by
        simp only [List.cons_append, noDoubleSlash, Bool.and_eq_true] at h
        exact h.2)

theorem getLast?_cons_ne_nil {a : Char} {l : List Char} (h : l ≠ []) :
    (a :: l).getLast? = l.getLast? := by
  cases l with
  | nil => exact absurd rfl h
  | cons b r => exact List.getLast?_cons_cons

theorem gCore_single {c : Char} (h : c ≠ '/') : gCore [c] = ['/', c] := by
  simp [gCore, splitOnSlash, if_neg h]

theorem gCore_slash_cons (tl : List Char) : gCore ('/' :: tl) = gCore tl := by
  simp [gCore, split_cons_slash]

theorem gCore_eq : ∀ (n : Nat) (cs : List Char), cs.length ≤ n → cs ≠ [] →
    cs.head? ≠ some '/' → noDoubleSlash cs = true → cs.getLast? ≠ some '/' →
    gCore cs = '/' :: cs := by
  intro n
  induction n using Nat.strong_induction_on with
  | _ n ih =>
    intro cs hlen hne hhead hnd hlast
    cases cs with
    | nil => exact absurd rfl hne
    | cons c cs' =>
      have hc : c ≠ '/' := by simpa using hhead
      cases cs' with
      | nil => exact gCore_single hc
      | cons d cs'' =>
        by_cases hd : d = '/'
        · subst hd
          have hne'' : cs'' ≠ [] := by
            intro h
            subst h
            simp [List.getLast?] at hlast
          have hnd1 : noDoubleSlash ('/' :: cs'') = true := noDbl_tail hnd
          have hhead'' : cs''.head? ≠ some '/' := noDbl_head hnd1
          have hnd'' : noDoubleSlash cs'' = true := noDbl_tail hnd1
          have hlast'' : cs''.getLast? ≠ some '/' := by
            rwa [List.getLast?_cons_cons, getLast?_cons_ne_nil hne''] at hlast
          have hlen'' : cs''.length < n := by
            simp only [List.length_cons] at hlen
            omega
          have hrec := ih cs''.length hlen'' cs'' le_rfl hne'' hhead'' hnd'' hlast''
          obtain ⟨p, ps, hps, hsplit⟩ := split_cons_ne ('/' :: cs'') hc
          rw [split_cons_slash] at hps
          obtain ⟨rfl, rfl⟩ : p = [] ∧ ps = splitOnSlash cs'' := by
            cases hps
            exact ⟨rfl, rfl⟩
          unfold gCore at hrec ⊢
          rw [hsplit, List.filter_cons_of_pos (by simp)]
          simp only [List.map_cons, List.flatten_cons]
          rw [hrec]
          rfl
        · have hne' : (d :: cs'') ≠ [] := by simp
          have hhead' : (d :: cs'').head? ≠ some '/' := by simpa using hd
          have hnd' : noDoubleSlash (d :: cs'') = true := noDbl_tail hnd
          have hlast' : (d :: cs'').getLast? ≠ some '/' := by
            rwa [List.getLast?_cons_cons] at hlast
          have hlen' : (d :: cs'').length < n := by
            simp only [List.length_cons] at hlen ⊢
            omega
          have hrec := ih (d :: cs'').length hlen' (d :: cs'') le_rfl hne' hhead'
            hnd' hlast'
          obtain ⟨p', ps, hps', hsplit'⟩ := split_cons_ne cs'' hd
          obtain ⟨p, ps2, hps, hsplit⟩ := split_cons_ne (d :: cs'') hc
          rw [hsplit'] at hps
          obtain ⟨rfl, rfl⟩ : p = d :: p' ∧ ps2 = ps := by
            cases hps
            exact ⟨rfl, rfl⟩
          unfold gCore at hrec ⊢
          rw [hsplit, List.filter_cons_of_pos (by simp)]
          rw [hsplit', List.filter_cons_of_pos (by simp)] at hrec
          simp only [List.map_cons, List.flatten_cons, List.cons_append] at hrec ⊢
          simp only [List.cons.injEq, true_and] at hrec
          rw [hrec]

theorem head?_append_ne_nil {l l' : List Char} (h : l ≠ []) :
    (l ++ l').head? = l.head? := by
  cases l with
  | nil => exact absurd rfl h
  | cons a r => rfl

theorem charClean_spec : ∀ cs : List Char, cs ≠ [] → noDoubleSlash cs = true →
    charClean cs = ['/'] ∨
    ∃ tl, charClean cs = '/' :: tl ∧ tl ≠ [] ∧ tl.head? ≠ some '/' ∧
      noDoubleSlash tl = true ∧ tl.getLast? ≠ some '/' := by
  intro cs hne hnd
  by_cases h0 : cs = ['/']
  · left
    rw [charClean, if_pos h0, h0]
  · right
    unfold charClean
    rw [if_neg h0]
    have hcs1 : ∃ tl1, (if cs.head? = some '/' then cs else '/' :: cs) = '/' :: tl1 ∧
        tl1 ≠ [] ∧ noDoubleSlash ('/' :: tl1) = true := by
      by_cases hh : cs.head? = some '/'
      · rw [if_pos hh]
        cases cs with
        | nil => exact absurd rfl hne
        | cons a tl1 =>
          simp only [List.head?_cons, Option.some.injEq] at hh
          subst hh
          refine ⟨tl1, rfl, ?_, hnd⟩
          intro h
          subst h
          exact h0 rfl
      · rw [if_neg hh]
        exact ⟨cs, rfl, hne, noDbl_cons_slash hh hnd⟩
    obtain ⟨tl1, heq1, htl1ne, hnd1⟩ := hcs1
    rw [heq1]
    by_cases hl : ('/' :: tl1).getLast? = some '/'
    · rw [if_pos hl]
      rcases List.eq_nil_or_concat ('/' :: tl1) with h | ⟨l, a, hconc⟩
      · simp at h
      · rw [List.concat_eq_append] at hconc
        have ha : a = '/' := by
          rw [hconc, List.getLast?_concat] at hl
          exact (Option.some.injEq _ _ ▸ hl.symm).symm ▸ rfl
        subst ha
        have hlne : l ≠ [] := by
          intro h
          subst h
          simp only [List.nil_append] at hconc
          cases hconc
          exact htl1ne rfl
        have hlhead : l.head? = some '/' := by
          have : ('/' :: tl1).head? = some '/' := rfl
          rw [hconc, head?_append_ne_nil hlne] at this
          exact this
        obtain ⟨tl, rfl⟩ : ∃ tl, l = '/' :: tl := by
          cases l with
          | nil => exact absurd rfl hlne
          | cons x r =>
            simp only [List.head?_cons, Option.some.injEq] at hlhead
            subst hlhead
            exact ⟨r, rfl⟩
        have hndl : noDoubleSlash ('/' :: tl ++ ['/']) = true := by
          rw [← hconc]
          exact hnd1
        have htlne : tl ≠ [] := by
          intro h
          subst h
          simp [noDoubleSlash] at hndl
        refine ⟨tl, ?_, htlne, noDbl_head (noDbl_init hndl), noDbl_tail (noDbl_init hndl), ?_⟩
        · rw [hconc, List.dropLast_concat]
        · have := noDbl_concat_slash_last hndl
          rwa [getLast?_cons_ne_nil htlne] at this
    · rw [if_neg hl]
      refine ⟨tl1, rfl, htl1ne, noDbl_head hnd1, noDbl_tail hnd1, ?_⟩
      rwa [getLast?_cons_ne_nil htl1ne] at hl

theorem charClean_root : charClean ['/'] = ['/'] := rfl

theorem charClean_canonical {tl : List Char} (htlne : tl ≠ [])
    (hlast : tl.getLast? ≠ some '/') :
    charClean ('/' :: tl) = '/' :: tl := by
  simp [charClean, htlne, getLast?_cons_ne_nil htlne, hlast]

theorem charClean_idem (cs : List Char) (hne : cs ≠ [])
    (hnd : noDoubleSlash cs = true) :
    charClean (charClean cs) = charClean cs := by
  rcases charClean_spec cs hne hnd with h | ⟨tl, heq, htlne, _, _, hlast⟩
  · rw [h, charClean_root]
  · rw [heq, charClean_canonical htlne hlast]

theorem filter_map_mk (ps : List (List Char)) :
    (ps.map String.mk).filter (fun s => s ≠ "") =
      (ps.filter (fun p => p ≠ [])).map String.mk := by
  rw [List.filter_map]
  congr 1
  apply List.filter_congr
  intro l _
  simp [Function.comp, String.ext_iff]

theorem map_slash_mk (ls : List (List Char)) :
    (ls.map String.mk).map (fun s => "/" ++ s) =
      ls.map (fun l => String.mk ('/' :: l)) := by
  rw [List.map_map]
  rfl

theorem pyJoin_map_mk : ∀ ls : List (List Char),
    pyJoin (ls.map String.mk) = String.mk ls.flatten := by
  intro ls
  induction ls with
  | nil => rfl
  | cons a r ih =>
    simp only [List.map_cons, pyJoin, ih, List.flatten_cons]
    rfl

theorem to_path_to_dirs_canonical {tl : List Char} (htlne : tl ≠ [])
    (hhead : tl.head? ≠ some '/') (hnd : noDoubleSlash tl = true)
    (hlast : tl.getLast? ≠ some '/') :
    _directories_to_path (_path_to_directories (String.mk ('/' :: tl))) =
      String.mk ('/' :: tl) := by
  have hq_ne_root : String.mk ('/' :: tl) ≠ "/" := by
    intro h
    have hd := String.ext_iff.mp h
    simp only [List.cons.injEq, true_and] at hd
    exact htlne hd
  have hg : gCore ('/' :: tl) = '/' :: tl := by
    rw [gCore_slash_cons]
    exact gCore_eq tl.length tl le_rfl htlne hhead hnd hlast
  unfold _path_to_directories
  rw [if_neg hq_ne_root]
  show _directories_to_path
      ((((splitOnSlash ('/' :: tl)).map String.mk).filter (fun p => p ≠ "")).map
        (fun p => "/" ++ p)) = String.mk ('/' :: tl)
  rw [filter_map_mk, map_slash_mk]
  unfold _directories_to_path
  rw [show ((splitOnSlash ('/' :: tl)).filter (fun p => p ≠ [])).map
        (fun l => String.mk ('/' :: l)) =
      (((splitOnSlash ('/' :: tl)).filter (fun p => p ≠ [])).map
        (fun l => '/' :: l)).map String.mk by rw [List.map_map]; rfl]
  rw [pyJoin_map_mk]
  rw [show (((splitOnSlash ('/' :: tl)).filter (fun p => p ≠ [])).map
      (fun l => '/' :: l)).flatten = gCore ('/' :: tl) from rfl]
  rw [hg]
  simp [List.head?_cons]


/-- Claim C5 counterexample: `clean` strips exactly one trailing slash, so
on `"/a//"` (a path with a repeated slash, which the claim explicitly
includes) it returns `"/a/"` and a second application still changes it. -/
theorem c5_counterexample :
    _clean_path (_clean_path "/a//") ≠ _clean_path "/a//" := by decide

/-- Claim C5 (amended): the normalizer is idempotent and the directory
round-trip holds for every non-empty path that contains no repeated
(adjacent) slash; paths with repeated slashes, which the claim included,
are genuine counterexamples (`c5_counterexample`). -/
theorem c5_clean_roundtrip : ∀ p : String, p ≠ "" → noDoubleSlash p.data = true →
    _clean_path (_clean_path p) = _clean_path p ∧
    _directories_to_path (_path_to_directories (_clean_path p)) = _clean_path p := by
  intro p hp hnd
  have hdne : p.data ≠ [] := by
    intro h
    exact hp (String.ext h)
  constructor
  · exact congrArg String.mk (charClean_idem p.data hdne hnd)
  · rcases charClean_spec p.data hdne hnd with h | ⟨tl, heq, htlne, hhead, hnd', hlast⟩
    · have hcp : _clean_path p = "/" := by
        unfold _clean_path
        rw [h]
      rw [hcp]
      rfl
    · have hcp : _clean_path p = String.mk ('/' :: tl) := by
        unfold _clean_path
        rw [heq]
      rw [hcp]
      exact to_path_to_dirs_canonical htlne hhead hnd' hlast

/-- Claim C5 witness: both identities at the concrete canonical path
`"/a/b"`. -/
theorem c5_witness :
    ("/a/b" : String) ≠ "" ∧ noDoubleSlash ("/a/b" : String).data = true ∧
      _clean_path (_clean_path "/a/b") = _clean_path "/a/b" ∧
      _directories_to_path (_path_to_directories (_clean_path "/a/b")) =
        _clean_path "/a/b" :=
  ⟨by decide, by decide,
   (c5_clean_roundtrip "/a/b" (by decide) (by decide)).1,
   (c5_clean_roundtrip "/a/b" (by decide) (by decide)).2⟩
